import Mathlib

/-!
Verification of the guitargame real-time hit-judging engine.

The Go/TypeScript sources are shallowly embedded as Lean definitions:
`float64` quantities (times, confidences, screen coordinates) are embedded
as exact rationals (`ℚ`); frequencies and the cents computation of the
pitch matcher, which go through transcendental functions (`math.Log2`,
`math.Pow`), are embedded over `ℝ` with `Real.logb` / real exponentiation.
Go `int` counters are embedded as `ℤ`.  Mutation of the per-note runtime
judgment (Go mutates notes through pointers) is embedded as explicit state
passing: functions return the updated note / game state.
-/

namespace GuitarGame

/-! ## Hit quality (desktop `song` package, types section of the source)

Go: `type HitQuality int` with `HitMiss, HitOK, HitGood, HitPerfect`. -/

inductive HitQuality where
  | miss
  | ok
  | good
  | perfect
deriving DecidableEq, Repr

/-- Go `HitQuality.Score`. -/
def HitQuality.score : HitQuality → ℤ
  | .perfect => 100
  | .good => 50
  | .ok => 25
  | .miss => 0

/-- Go `HitQuality.String`. -/
def HitQuality.label : HitQuality → String
  | .perfect => "Perfect!"
  | .good => "Good"
  | .ok => "OK"
  | .miss => "Miss"

/-! ## Timing windows (desktop `game` package, hit detection source)

Go constants `PerfectWindow = 0.050`, `GoodWindow = 0.100`,
`OKWindow = 0.150`, `MissWindow = 0.300`, embedded as exact rationals. -/

def PerfectWindow : ℚ := 50 / 1000
def GoodWindow : ℚ := 100 / 1000
def OKWindow : ℚ := 150 / 1000
def MissWindow : ℚ := 300 / 1000

/-- Go `HitDetector.getHitQuality`: classify an absolute time offset. -/
def getHitQuality (absTimeDiff : ℚ) : HitQuality :=
  if absTimeDiff ≤ PerfectWindow then .perfect
  else if absTimeDiff ≤ GoodWindow then .good
  else if absTimeDiff ≤ OKWindow then .ok
  else .miss

/-! ## Reference frequency table (Go `buildNoteFrequencies`)

The Go code stores `freq := 440 * 2^((midiNote-69)/12)` under the key
`name + string(rune('0'+octave))`.  The embedding splits this into a
computable table of midi numbers (`noteMidiTable`) and the noncomputable
real-valued frequency function (`midiFreq`), so that table membership and
lookups stay decidable while frequencies live in `ℝ`. -/

def noteNames : List String :=
  ["C", "C#", "D", "D#", "E", "F"] ++ ["F#", "G", "G#", "A", "A#", "B"]

/-- Go `flatNames`: flat spellings aliased to their sharp equivalents. -/
def flatNames : List (String × String) :=
  [("Db", "C#"), ("Eb", "D#"), ("Fb", "E"), ("Gb", "F#"), ("Ab", "G#"),
   ("Bb", "A#"), ("Cb", "B")]

/-- Go key construction `name + string(rune('0'+octave))`. -/
def noteKey (name : String) (octave : ℤ) : String :=
  name ++ String.mk [Char.ofNat (48 + octave).toNat]

/-- Midi numbers of the base (sharp/natural) entries: Go's outer loop over
octaves 0–4 and inner loop over `noteNames`, with
`midiNote := (octave+1)*12 + i`. -/
def baseNoteMidi : List (String × ℤ) :=
  (List.range 5).flatMap fun octave =>
    noteNames.enum.map fun p =>
      (noteKey p.2 (octave : ℤ), ((octave : ℤ) + 1) * 12 + (p.1 : ℤ))

/-- The full table: base entries plus the flat aliases, which copy the entry
of the corresponding sharp key when present (Go's second loop). -/
def noteMidiTable : List (String × ℤ) :=
  baseNoteMidi ++
    flatNames.flatMap fun fs =>
      (List.range 5).filterMap fun octave =>
        match baseNoteMidi.lookup (noteKey fs.2 (octave : ℤ)) with
        | some m => some (noteKey fs.1 (octave : ℤ), m)
        | none => none

/-- Equal-tempered frequency of a midi note, A4 = 440 Hz:
`440 * 2^((midiNote-69)/12)` (Go computes this inline in the table). -/
noncomputable def midiFreq (midiNote : ℤ) : ℝ :=
  440 * (2 : ℝ) ^ (((midiNote : ℝ) - 69) / 12)

/-- Go map `noteFrequencies`: note key to frequency. -/
noncomputable def noteFrequency (key : String) : Option ℝ :=
  (noteMidiTable.lookup key).map midiFreq

/-- Core of Go `HitDetector.notesMatch` given the expected note name and
octave: look up the reference frequency (fail closed when absent) and match
iff the deviation is strictly below 50 cents,
`|1200 * log2(freq/expectedFreq)| < 50`. -/
def notesMatchKey (freq : ℝ) (name : String) (octave : ℤ) : Prop :=
  match noteMidiTable.lookup (noteKey name octave) with
  | none => False
  | some m => |1200 * Real.logb 2 (freq / midiFreq m)| < 50

/-! ## Tuning and tab-note pitch derivation (Go `song` package) -/

/-- Go `StringTuning`: one open string's note name and octave. -/
structure StringTuning where
  note : String
  octave : ℤ
deriving DecidableEq, Repr

/-- Go `noteMap` inside `StringTuning.Semitone`. -/
def semitoneMap : List (String × ℤ) :=
  [("C", 0), ("C#", 1), ("Db", 1), ("D", 2), ("D#", 3), ("Eb", 3),
   ("E", 4), ("Fb", 4), ("F", 5), ("F#", 6), ("Gb", 6), ("G", 7),
   ("G#", 8), ("Ab", 8), ("A", 9), ("A#", 10), ("Bb", 10), ("B", 11),
   ("Cb", 11)]

/-- Go `StringTuning.Semitone`; a missing key yields the Go map zero value 0. -/
def StringTuning.semitone (s : StringTuning) : ℤ :=
  (semitoneMap.lookup s.note).getD 0

/-- Go `TabNote`.  `String`/`Fret` are Go `int`s that the chart invariant
keeps non-negative, embedded as `ℕ`; the runtime judgment fields (`Hit`,
`HitQuality`, `HitTime`) are carried inline as in the source. -/
structure TabNote where
  time : ℚ
  beat : ℚ := 0
  string : ℕ
  fret : ℕ
  duration : ℚ := 0
  hit : Bool := false
  hitQuality : HitQuality := .miss
  hitTime : ℚ := 0
deriving DecidableEq, Repr

/-- Go `TabNote.NoteWithTuning`.  On non-negative operands Lean's `%` on `ℤ`
agrees with Go's `%`. -/
def NoteWithTuning (n : TabNote) (tuning : List StringTuning) : String :=
  match tuning.get? n.string with
  | none => "?"
  | some openString =>
    if n.fret = 0 then openString.note
    else
      let noteIndex := (openString.semitone + (n.fret : ℤ)) % 12
      noteNames.getD noteIndex.toNat "?"

/-- Go `TabNote.OctaveWithTuning`.  On non-negative operands Lean's `/` on
`ℤ` agrees with Go's truncated division. -/
def OctaveWithTuning (n : TabNote) (tuning : List StringTuning) : ℤ :=
  match tuning.get? n.string with
  | none => 1
  | some openString =>
    let notePos := openString.semitone + (n.fret : ℤ)
    openString.octave + notePos / 12

/-- Go `HitDetector.notesMatch`: derive the expected note name and octave
from the song's tuning, then match against the reference table. -/
def notesMatch (freq : ℝ) (tuning : List StringTuning) (n : TabNote) : Prop :=
  notesMatchKey freq (NoteWithTuning n tuning) (OctaveWithTuning n tuning)

/-! ## Pitch samples (desktop `audio` package) -/

/-- Go `audio.PitchResult`.  `Frequency` is real-valued (it feeds the
transcendental matcher); `Confidence`/`RMS` are embedded as rationals. -/
structure PitchResult where
  frequency : ℝ
  confidence : ℚ
  note : String
  octave : ℤ
  cents : ℤ
  rms : ℚ

/-- Go `PitchResult.IsValid`: `r.Note != "" && r.Confidence > 0.5`. -/
def PitchResult.IsValid (r : PitchResult) : Bool :=
  r.note != "" && decide ((1 : ℚ) / 2 < r.confidence)

/-! ## Score/combo state (Go `song.GameState`)

The Go struct also carries `StartTime` (a wall-clock `time.Time`) and the
`IsPlaying`/`IsFinished` session flags; those belong to the frame driver and
session machine and are not read by the judging logic verified here.  The
`FloatingScore.StartTime` wall-clock stamp (used only for render-side fade
out) is likewise omitted. -/

/-- Go `song.FloatingScore` (minus the wall-clock `StartTime`). -/
structure FloatingScore where
  text : String
  x : ℚ
  y : ℚ
  quality : HitQuality
deriving DecidableEq, Repr

/-- Go `song.GameState`: the chart notes with their inline runtime judgment,
the frame clock, and the score/combo counters. -/
structure GameState where
  notes : List TabNote
  currentTime : ℚ
  score : ℤ
  combo : ℤ
  maxCombo : ℤ
  notesHit : ℤ
  notesMissed : ℤ
  totalNotes : ℤ
  floatingText : List FloatingScore
deriving DecidableEq, Repr

/-- The combo-multiplier ladder inlined in Go `GameState.RegisterHit`
(sequential `if g.Combo >= k` reassignments of `multiplier`). -/
def comboMultiplierGo (combo : ℤ) : ℤ :=
  let m : ℤ := 1
  let m := if combo ≥ 10 then 2 else m
  let m := if combo ≥ 25 then 3 else m
  if combo ≥ 50 then 4 else m

/-- Feedback text per Go `RegisterHit`: the quality label, plus `" x"` and
the combo capped at 9 (`string(rune('0'+min(g.Combo, 9)))`) when
`points > 0 && g.Combo > 1`. -/
def feedbackText (quality : HitQuality) (points combo : ℤ) : String :=
  if 0 < points ∧ 1 < combo then
    quality.label ++ " x" ++ String.mk [Char.ofNat (48 + min combo 9).toNat]
  else
    quality.label

/-- Go `GameState.RegisterHit`: mark the note hit with the given quality and
hit time, then update combo/score/counters and append a feedback event.  Go
mutates the note through a pointer; here the updated note is returned
alongside the updated state and the caller splices it back.  Go's shared
tail (`points *= multiplier` only in the non-miss branch, then
`g.Score += points` and the feedback append) is inlined into each branch
with the branch's `points`/`combo` values. -/
def RegisterHit (g : GameState) (note : TabNote) (quality : HitQuality)
    (x y : ℚ) : TabNote × GameState :=
  let note' :=
    { note with
        hit := true
        hitQuality := quality
        hitTime := g.currentTime }
  let basePoints := quality.score
  if quality ≠ HitQuality.miss then
    let combo := g.combo + 1
    let maxCombo := if combo > g.maxCombo then combo else g.maxCombo
    let points := basePoints * comboMultiplierGo combo
    (note',
      { g with
          combo := combo
          maxCombo := maxCombo
          notesHit := g.notesHit + 1
          score := g.score + points
          floatingText := g.floatingText ++
            [{ text := feedbackText quality points combo
               x := x
               y := y
               quality := quality }] })
  else
    (note',
      { g with
          combo := 0
          notesMissed := g.notesMissed + 1
          score := g.score + basePoints
          floatingText := g.floatingText ++
            [{ text := feedbackText quality basePoints 0
               x := x
               y := y
               quality := quality }] })

/-! ## The hit-judging scanner (Go `HitDetector.CheckHit` / `Update`)

`CheckHit` calls `h.notesMatch(pitch, note)`, a pure function of the pitch
sample and the note (under the song's fixed tuning).  Its verdict goes
through real-valued logarithms (`notesMatch` above), so the scanner is
embedded with the per-note verdict function `matchesNote` as an explicit
parameter; every scanner theorem below holds for all verdict functions,
hence in particular for the actual matcher, which claim C2 verifies
separately. -/

/-- The loop body of Go `CheckHit`: scan notes in order, skipping hit notes
and far-future notes, registering stale notes as misses, and registering at
most one pitch-matched note (the loop returns right after the first match). -/
def checkHitLoop (matchesNote : TabNote → Bool) (currentTime playLineX : ℚ) :
    List TabNote → GameState → List TabNote × GameState
  | [], g => ([], g)
  | note :: rest, g =>
    if note.hit then
      let p := checkHitLoop matchesNote currentTime playLineX rest g
      (note :: p.1, p.2)
    else
      let timeDiff := note.time - currentTime
      let absTimeDiff := |timeDiff|
      if timeDiff > MissWindow then
        let p := checkHitLoop matchesNote currentTime playLineX rest g
        (note :: p.1, p.2)
      else if timeDiff < -MissWindow then
        let q := RegisterHit g note .miss playLineX (80 + (note.string : ℚ) * 40)
        let p := checkHitLoop matchesNote currentTime playLineX rest q.2
        (q.1 :: p.1, p.2)
      else if matchesNote note then
        let q := RegisterHit g note (getHitQuality absTimeDiff) playLineX
          (80 + (note.string : ℚ) * 40)
        (q.1 :: rest, q.2)
      else
        let p := checkHitLoop matchesNote currentTime playLineX rest g
        (note :: p.1, p.2)

/-- Go `HitDetector.CheckHit`: return immediately on an invalid sample,
otherwise scan the notes with the current time read once up front. -/
def CheckHit (pitch : PitchResult) (matchesNote : TabNote → Bool)
    (playLineX : ℚ) (g : GameState) : GameState :=
  if !pitch.IsValid then g
  else
    let p := checkHitLoop matchesNote g.currentTime playLineX g.notes g
    { p.2 with notes := p.1 }

/-- The loop body of Go `HitDetector.Update`: sweep every not-yet-hit note
whose age exceeds the miss window and register it as a miss. -/
def updateLoop (currentTime : ℚ) :
    List TabNote → GameState → List TabNote × GameState
  | [], g => ([], g)
  | note :: rest, g =>
    if note.hit then
      let p := updateLoop currentTime rest g
      (note :: p.1, p.2)
    else if currentTime - note.time > MissWindow then
      let q := RegisterHit g note .miss 0 (80 + (note.string : ℚ) * 40)
      let p := updateLoop currentTime rest q.2
      (q.1 :: p.1, p.2)
    else
      let p := updateLoop currentTime rest g
      (note :: p.1, p.2)

/-- Go `HitDetector.Update` (the miss sweep). -/
def Update (g : GameState) : GameState :=
  let p := updateLoop g.currentTime g.notes g
  { p.2 with notes := p.1 }

/-- Go `song.NewGameState`: fresh counters, `TotalNotes = len(song.Notes)`. -/
def NewGameState (notes : List TabNote) : GameState :=
  { notes := notes
    currentTime := 0
    score := 0
    combo := 0
    maxCombo := 0
    notesHit := 0
    notesMissed := 0
    totalNotes := (notes.length : ℤ)
    floatingText := [] }

/-! ## Session step alphabet

One frame of the hosting loop performs some interleaving of scanner
invocations (with whatever sample arrived), miss sweeps, and clock updates
(`GameState.Update` sets `CurrentTime` from the wall clock).  Sequences over
this alphabet model "any sequence of Scanner invocations". -/

inductive StepOp where
  | check (pitch : PitchResult) (matchesNote : TabNote → Bool) (playLineX : ℚ)
  | sweep
  | tick (t : ℚ)

def StepOp.apply : StepOp → GameState → GameState
  | .check pitch m plx, g => CheckHit pitch m plx g
  | .sweep, g => Update g
  | .tick t, g => { g with currentTime := t }

def run (ops : List StepOp) (g : GameState) : GameState :=
  ops.foldl (fun g op => op.apply g) g

/-- The `Hit` flag of note `i` (false when out of range). -/
def noteHitAt (g : GameState) (i : ℕ) : Bool :=
  ((g.notes.get? i).map (·.hit)).getD false

/-- Number of steps along a run at which note `i` transitions from unhit to
hit — exactly the number of `RegisterHit` invocations on that note, since
all call sites guard on `hit == false` and `RegisterHit` sets `hit = true`. -/
def flipsFrom (i : ℕ) (g : GameState) : List StepOp → ℕ
  | [] => 0
  | op :: rest =>
    (if noteHitAt g i = false ∧ noteHitAt (op.apply g) i = true then 1 else 0) +
      flipsFrom i (op.apply g) rest

/-! ## The web implementation (TypeScript `types/game.ts`, `stores/songs.ts`) -/

/-- TS `getComboMultiplier` in `types/game.ts`. -/
def getComboMultiplier (combo : ℤ) : ℤ :=
  if combo ≥ 50 then 4
  else if combo ≥ 25 then 3
  else if combo ≥ 10 then 2
  else 1

/-- TS `hitQualityText` in `types/game.ts`. -/
def hitQualityText : HitQuality → String
  | .perfect => "Perfect!"
  | .good => "Good"
  | .ok => "OK"
  | .miss => "Miss"

/-- TS `hitQualityScore` in `types/game.ts`. -/
def hitQualityScore : HitQuality → ℤ
  | .perfect => 100
  | .good => 50
  | .ok => 25
  | .miss => 0

/-- TS `GAME_STATE` in `types/game.ts`. -/
inductive WebGameStateType where
  | menu
  | preStart
  | playing
  | results
deriving DecidableEq, Repr

/-- The fields of the web game store touched by `recordHit`/`recordMiss`. -/
structure WebGameStore where
  state : WebGameStateType
  combo : ℤ
  maxCombo : ℤ
  score : ℤ
  notesHit : ℤ
  notesMissed : ℤ
  floatingText : List FloatingScore
deriving DecidableEq, Repr

/-- TS `recordHit` in `stores/songs.ts` (wall-clock `startTime` omitted as
above): guard on PLAYING, post-increment combo, multiplier on the updated
combo, `"<label> x<multiplier>"` text exactly when the multiplier exceeds 1. -/
def recordHit (s : WebGameStore) (quality : HitQuality) (x y : ℚ) :
    WebGameStore :=
  if s.state ≠ WebGameStateType.playing then s
  else
    let combo := s.combo + 1
    let maxCombo := if combo > s.maxCombo then combo else s.maxCombo
    let baseScore := hitQualityScore quality
    let multiplier := getComboMultiplier combo
    let text :=
      if multiplier > 1 then
        hitQualityText quality ++ " x" ++ toString multiplier
      else hitQualityText quality
    { s with
        combo := combo
        maxCombo := maxCombo
        score := s.score + baseScore * multiplier
        notesHit := s.notesHit + 1
        floatingText := s.floatingText ++
          [{ text := text, x := x, y := y, quality := quality }] }

/-- TS `recordMiss` in `stores/songs.ts`: reset combo, count the miss; no
feedback event is appended. -/
def recordMiss (s : WebGameStore) : WebGameStore :=
  if s.state ≠ WebGameStateType.playing then s
  else { s with combo := 0, notesMissed := s.notesMissed + 1 }

/-- Observation predicate on an (input note, output note) pair of one
scanner pass: the note flipped from unhit to hit while inside the judging
window `|note.time - currentTime| ≤ MissWindow`.  Within `CheckHit` only
the pitch-match path judges notes inside the window (the stale-miss path
fires strictly outside it), so pairs satisfying this predicate are exactly
the pitch-match judgments. -/
def judgedInWindow (ct : ℚ) (p : TabNote × TabNote) : Bool :=
  !p.1.hit && p.2.hit && decide (|p.1.time - ct| ≤ MissWindow)

/-- Bookkeeping relation between the state entering a scan (or sweep) and
the state leaving it: the judged counters grow exactly by the number of
notes newly marked hit, `0 ≤ combo ≤ maxCombo` is preserved, and the total
and the note-list length are untouched. -/
def StepRel (notes : List TabNote) (g : GameState)
    (notes' : List TabNote) (g' : GameState) : Prop :=
  g'.notesHit + g'.notesMissed + (notes.countP (·.hit) : ℤ)
      = g.notesHit + g.notesMissed + (notes'.countP (·.hit) : ℤ) ∧
  (0 ≤ g.combo → g.combo ≤ g.maxCombo →
    0 ≤ g'.combo ∧ g'.combo ≤ g'.maxCombo) ∧
  g'.totalNotes = g.totalNotes ∧
  notes'.length = notes.length

/-- The session invariant behind claim C8: the judged counters count the
hit notes, the total is the chart length, and `0 ≤ combo ≤ maxCombo`. -/
def ScoreInv (g : GameState) : Prop :=
  g.notesHit + g.notesMissed = (g.notes.countP (·.hit) : ℤ) ∧
  g.totalNotes = (g.notes.length : ℤ) ∧
  0 ≤ g.combo ∧ g.combo ≤ g.maxCombo

end GuitarGame

namespace GuitarGame

/-- Claim C1: for every non-negative time offset `t`, `getHitQuality` returns
Perfect when `t ≤ 0.050`, Good when `0.050 < t ≤ 0.100`, OK when
`0.100 < t ≤ 0.150`, and Miss when `t > 0.150`, with base point values
100, 50, 25, 0 respectively; exact boundary values resolve to the tighter
(better) tier, so the four intervals partition `[0, ∞)` with no gaps or
overlaps. -/
theorem timing_classifier_partition (t : ℚ) (ht : 0 ≤ t) :
    ((getHitQuality t = .perfect ↔ t ≤ 50 / 1000) ∧
     (getHitQuality t = .good ↔ 50 / 1000 < t ∧ t ≤ 100 / 1000) ∧
     (getHitQuality t = .ok ↔ 100 / 1000 < t ∧ t ≤ 150 / 1000) ∧
     (getHitQuality t = .miss ↔ 150 / 1000 < t)) ∧
    (HitQuality.score .perfect = 100 ∧ HitQuality.score .good = 50 ∧
     HitQuality.score .ok = 25 ∧ HitQuality.score .miss = 0) := by
  refine ⟨?_, by decide, by decide, by decide, by decide⟩
  unfold getHitQuality PerfectWindow GoodWindow OKWindow
  refine ⟨?_, ?_, ?_, ?_⟩ <;>
    · split_ifs with h1 h2 h3 <;> simp_all <;> intros <;> linarith

/-- Witness for C1 at `t = 0.03` (Perfect tier). -/
theorem timing_classifier_partition_witness :
    getHitQuality (3 / 100) = .perfect :=
  ((timing_classifier_partition (3 / 100) (by norm_num)).1.1).mpr (by norm_num)

/-- Helper: every semitone-map entry `(name, idx)`, at each octave 0–4, is
present in the reference table with midi number `(octave+1)*12 + idx`. -/
theorem noteMidiTable_lookup_eq :
    ∀ p ∈ semitoneMap, ∀ o ∈ List.range 5,
      noteMidiTable.lookup (noteKey p.1 (o : ℤ)) = some (((o : ℤ) + 1) * 12 + p.2) := by
  decide

/-- Claim C2: for every pitch sample frequency `f > 0` and every expected
`(noteName, octave)` present in the reference table (octaves 0–4, the 12
sharp/natural and 7 flat spellings), the matcher returns true iff
`|1200 * log2(f / referenceFrequency)| < 50` where
`referenceFrequency = 440 * 2^((midiNumber - 69)/12)` and
`midiNumber = 12*(octave+1) + noteIndexInOctave`; for an expected note
absent from the table it returns false (fail closed, a total function that
never throws). -/
theorem matcher_cents_tolerance (f : ℝ) (hf : 0 < f) (name : String) (idx : ℤ)
    (octave : ℕ) (hname : (name, idx) ∈ semitoneMap) (hoct : octave < 5) :
    (notesMatchKey f name (octave : ℤ) ↔
      |1200 * Real.logb 2
        (f / (440 * (2 : ℝ) ^ ((12 * ((octave : ℝ) + 1) + (idx : ℝ) - 69) / 12)))| < 50) ∧
    ∀ (badName : String) (badOct : ℤ),
      noteMidiTable.lookup (noteKey badName badOct) = none →
        ¬ notesMatchKey f badName badOct := by
  constructor
  · have h := noteMidiTable_lookup_eq (name, idx) hname octave (List.mem_range.mpr hoct)
    have hcast : ((((octave : ℤ) + 1) * 12 + idx : ℤ) : ℝ) - 69
        = 12 * ((octave : ℝ) + 1) + (idx : ℝ) - 69 := by push_cast; ring
    have hfreq : midiFreq (((octave : ℤ) + 1) * 12 + idx) =
        440 * (2 : ℝ) ^ ((12 * ((octave : ℝ) + 1) + (idx : ℝ) - 69) / 12) := by
      unfold midiFreq
      rw [hcast]
    unfold notesMatchKey
    rw [h]
    simp only [hfreq]
  · intro badName badOct hnone
    unfold notesMatchKey
    rw [hnone]
    simp

/-- Witness for C2: expected note E1 (midi 28, ≈41.2 Hz string) with sample
frequency 41.2 Hz. -/
theorem matcher_cents_tolerance_witness :
    (("E", (4 : ℤ)) ∈ semitoneMap ∧ (1 : ℕ) < 5 ∧ (0 : ℝ) < 41.2) ∧
    (notesMatchKey 41.2 "E" ((1 : ℕ) : ℤ) ↔
      |1200 * Real.logb 2
        (41.2 / (440 * (2 : ℝ) ^ ((12 * (((1 : ℕ) : ℝ) + 1) + ((4 : ℤ) : ℝ) - 69) / 12)))| < 50) :=
  ⟨⟨by decide, by decide, by norm_num⟩,
    (matcher_cents_tolerance 41.2 (by norm_num) "E" 4 1 (by decide) (by decide)).1⟩

/-! ### `RegisterHit` unfolding lemmas (shared helpers) -/

/-- `RegisterHit` on a miss: combo reset, `notesMissed` incremented, zero
points added, one feedback event appended, note marked hit with quality
miss. -/
theorem RegisterHit_miss_spec (g : GameState) (n : TabNote) (x y : ℚ) :
    RegisterHit g n .miss x y =
      ({ n with hit := true, hitQuality := .miss, hitTime := g.currentTime },
       { g with
           combo := 0
           notesMissed := g.notesMissed + 1
           score := g.score + 0
           floatingText := g.floatingText ++
             [⟨feedbackText .miss 0 0, x, y, .miss⟩] }) := rfl

/-- `RegisterHit` on a non-miss quality: combo incremented, max combo
raised when exceeded, base points times the ladder multiplier added, one
feedback event appended, note marked hit. -/
theorem RegisterHit_hit_spec (g : GameState) (n : TabNote) (q : HitQuality)
    (hq : q ≠ .miss) (x y : ℚ) :
    RegisterHit g n q x y =
      ({ n with hit := true, hitQuality := q, hitTime := g.currentTime },
       { g with
           combo := g.combo + 1
           maxCombo := if g.combo + 1 > g.maxCombo then g.combo + 1
                       else g.maxCombo
           notesHit := g.notesHit + 1
           score := g.score + q.score * comboMultiplierGo (g.combo + 1)
           floatingText := g.floatingText ++
             [⟨feedbackText q (q.score * comboMultiplierGo (g.combo + 1))
                 (g.combo + 1), x, y, q⟩] }) := by
  unfold RegisterHit
  simp [hq]

/-- The hit flag is always set by `RegisterHit`. -/
theorem RegisterHit_fst_hit (g : GameState) (n : TabNote) (q : HitQuality)
    (x y : ℚ) :
    (RegisterHit g n q x y).1 =
      { n with hit := true, hitQuality := q, hitTime := g.currentTime } := by
  unfold RegisterHit
  split <;> rfl

/-- `RegisterHit` leaves the note list, clock and total untouched. -/
theorem RegisterHit_preserves (g : GameState) (n : TabNote) (q : HitQuality)
    (x y : ℚ) :
    (RegisterHit g n q x y).2.notes = g.notes ∧
    (RegisterHit g n q x y).2.currentTime = g.currentTime ∧
    (RegisterHit g n q x y).2.totalNotes = g.totalNotes := by
  unfold RegisterHit
  split <;> exact ⟨rfl, rfl, rfl⟩

/-- Each `RegisterHit` increments exactly one of the two judged counters. -/
theorem RegisterHit_judged_count (g : GameState) (n : TabNote)
    (q : HitQuality) (x y : ℚ) :
    (RegisterHit g n q x y).2.notesHit + (RegisterHit g n q x y).2.notesMissed
      = g.notesHit + g.notesMissed + 1 := by
  unfold RegisterHit
  split <;> simp <;> ring

/-- `RegisterHit` preserves `0 ≤ combo ≤ maxCombo`. -/
theorem RegisterHit_combo_le (g : GameState) (n : TabNote) (q : HitQuality)
    (x y : ℚ) (h0 : 0 ≤ g.combo) (h1 : g.combo ≤ g.maxCombo) :
    0 ≤ (RegisterHit g n q x y).2.combo ∧
    (RegisterHit g n q x y).2.combo ≤ (RegisterHit g n q x y).2.maxCombo := by
  unfold RegisterHit
  split
  · constructor
    · show (0 : ℤ) ≤ g.combo + 1
      omega
    · show g.combo + 1 ≤
        (if g.combo + 1 > g.maxCombo then g.combo + 1 else g.maxCombo)
      split_ifs <;> omega
  · constructor
    · show (0 : ℤ) ≤ 0
      omega
    · show (0 : ℤ) ≤ g.maxCombo
      omega

/-- The sequential-`if` multiplier of the Go code equals the web ladder. -/
theorem comboMultiplierGo_eq (c : ℤ) :
    comboMultiplierGo c = getComboMultiplier c := rfl

/-- Claim C6: the combo multiplier function is exactly `{1,2,3,4}`-valued
and monotonic non-decreasing with breakpoints at 10, 25 and 50, the Go and
web ladders agree, on every non-miss hit it is evaluated on the
post-increment combo, and an 11th consecutive Perfect hit adds
`100 * 2 = 200` points and raises `maxCombo` to at least 11. -/
theorem combo_multiplier_ladder :
    (∀ c : ℤ,
      (getComboMultiplier c = 1 ∨ getComboMultiplier c = 2 ∨
       getComboMultiplier c = 3 ∨ getComboMultiplier c = 4) ∧
      (c < 10 → getComboMultiplier c = 1) ∧
      (10 ≤ c → c < 25 → getComboMultiplier c = 2) ∧
      (25 ≤ c → c < 50 → getComboMultiplier c = 3) ∧
      (50 ≤ c → getComboMultiplier c = 4) ∧
      comboMultiplierGo c = getComboMultiplier c) ∧
    (∀ c d : ℤ, c ≤ d → getComboMultiplier c ≤ getComboMultiplier d) ∧
    (∀ (g : GameState) (n : TabNote) (x y : ℚ) (q : HitQuality),
      q ≠ .miss →
      (RegisterHit g n q x y).2.score =
        g.score + q.score * getComboMultiplier (g.combo + 1)) ∧
    (∀ (g : GameState) (n : TabNote) (x y : ℚ), g.combo = 10 →
      (RegisterHit g n .perfect x y).2.score = g.score + 100 * 2 ∧
      11 ≤ (RegisterHit g n .perfect x y).2.maxCombo) := by
  refine ⟨fun c => ?_, fun c d hcd => ?_, fun g n x y q hq => ?_,
    fun g n x y hc => ?_⟩
  · simp only [getComboMultiplier, comboMultiplierGo]
    split_ifs <;> refine ⟨?_, ?_, ?_, ?_, ?_, ?_⟩ <;> first | trivial | omega
  · simp only [getComboMultiplier]
    split_ifs <;> omega
  · rw [RegisterHit_hit_spec g n q hq x y, comboMultiplierGo_eq]
  · rw [RegisterHit_hit_spec g n .perfect (by decide) x y, hc]
    refine ⟨?_, ?_⟩
    · show g.score + HitQuality.score .perfect * comboMultiplierGo (10 + 1)
        = g.score + 100 * 2
      norm_num [HitQuality.score, comboMultiplierGo]
    · show 11 ≤ (if 10 + 1 > g.maxCombo then 10 + 1 else g.maxCombo)
      split_ifs <;> omega

/-- Witness for C6 at combo 3 vs 12 and at a concrete state with a running
combo of 10. -/
theorem combo_multiplier_ladder_witness :
    getComboMultiplier 3 ≤ getComboMultiplier 12 ∧
    (RegisterHit ⟨[], 0, 0, 10, 10, 10, 0, 12, []⟩
      ⟨2, 0, 3, 0, 0, false, .miss, 0⟩ .perfect 0 0).2.score = 0 + 100 * 2 :=
  ⟨combo_multiplier_ladder.2.1 3 12 (by decide),
   (combo_multiplier_ladder.2.2.2 ⟨[], 0, 0, 10, 10, 10, 0, 12, []⟩
     ⟨2, 0, 3, 0, 0, false, .miss, 0⟩ 0 0 rfl).1⟩

/-- Counterexample to claim C7: in the desktop `RegisterHit`, a Perfect hit
at a pre-increment combo of 1 yields a post-increment combo of 2, so the
multiplier is still 1 — yet the appended feedback text is
`"Perfect! x2"` (the suffix shows the combo, not the multiplier), not the
quality label alone as the claim requires when the multiplier is 1. -/
theorem feedback_text_counterexample :
    getComboMultiplier
      ((RegisterHit ⟨[], 0, 100, 1, 1, 1, 0, 2, []⟩
        ⟨0, 0, 0, 0, 0, false, .miss, 0⟩ .perfect 0 0).2.combo) = 1 ∧
    ((RegisterHit ⟨[], 0, 100, 1, 1, 1, 0, 2, []⟩
      ⟨0, 0, 0, 0, 0, false, .miss, 0⟩ .perfect 0 0).2.floatingText.map
        FloatingScore.text) = ["Perfect! x2"] ∧
    ("Perfect! x2" : String) ≠ "Perfect!" := by
  refine ⟨by decide, by decide, by decide⟩

/-- Claim C7 as amended: every desktop `RegisterHit` (hit or miss) appends
exactly one feedback event; its text carries a `" x<combo>"` suffix — the
post-increment combo capped at 9, not the multiplier — exactly when the
points added are positive and the post-increment combo exceeds 1, and is
the quality label alone otherwise.  The web `recordHit` appends exactly one
event whose text carries a `" x<multiplier>"` suffix exactly when the
multiplier exceeds 1, and the web `recordMiss` appends no feedback event at
all. -/
theorem feedback_event_amended :
    (∀ (g : GameState) (n : TabNote) (q : HitQuality) (x y : ℚ),
      (RegisterHit g n q x y).2.floatingText =
        g.floatingText ++
          [⟨(if q ≠ HitQuality.miss ∧
                0 < q.score * comboMultiplierGo (g.combo + 1) ∧
                1 < g.combo + 1 then
               q.label ++ " x" ++
                 String.mk [Char.ofNat (48 + min (g.combo + 1) 9).toNat]
             else q.label), x, y, q⟩]) ∧
    (∀ (s : WebGameStore) (q : HitQuality) (x y : ℚ),
      s.state = .playing →
      (recordHit s q x y).floatingText =
        s.floatingText ++
          [⟨(if 1 < getComboMultiplier (s.combo + 1) then
               hitQualityText q ++ " x" ++
                 toString (getComboMultiplier (s.combo + 1))
             else hitQualityText q), x, y, q⟩]) ∧
    (∀ s : WebGameStore, (recordMiss s).floatingText = s.floatingText) := by
  refine ⟨fun g n q x y => ?_, fun s q x y hs => ?_, fun s => ?_⟩
  · by_cases hq : q = HitQuality.miss
    · subst hq
      rw [RegisterHit_miss_spec]
      simp [feedbackText]
    · rw [RegisterHit_hit_spec g n q hq x y]
      simp only [feedbackText, hq, ne_eq, not_false_eq_true, true_and]
  · unfold recordHit
    rw [if_neg (by simp [hs])]
  · unfold recordMiss
    split <;> rfl

/-- Witness for the amended C7: a web hit from the fresh playing store. -/
theorem feedback_event_amended_witness :
    (recordHit ⟨.playing, 0, 0, 0, 0, 0, []⟩ HitQuality.perfect 0 0).floatingText
      = [] ++
        [⟨(if 1 < getComboMultiplier ((0 : ℤ) + 1) then
             hitQualityText .perfect ++ " x" ++
               toString (getComboMultiplier ((0 : ℤ) + 1))
           else hitQualityText .perfect), 0, 0, .perfect⟩] :=
  feedback_event_amended.2.1 ⟨.playing, 0, 0, 0, 0, 0, []⟩ .perfect 0 0 rfl

/-! ### Miss sweep (`HitDetector.Update`) -/

/-- Per-note behaviour of the sweep loop: hit notes pass through unchanged,
stale unhit notes (older than the miss window) are registered as misses
with the loop's clock, and all other notes pass through unchanged.  The
threaded state's clock must equal the loop's clock (as it does at the top
call, and `RegisterHit` preserves it). -/
theorem updateLoop_get (ct : ℚ) (notes : List TabNote) :
    ∀ (g : GameState), g.currentTime = ct → ∀ (i : ℕ) (a : TabNote),
      notes.get? i = some a →
      (a.hit = true → (updateLoop ct notes g).1.get? i = some a) ∧
      (a.hit = false → ct - a.time > MissWindow →
        (updateLoop ct notes g).1.get? i =
          some { a with hit := true, hitQuality := .miss, hitTime := ct }) ∧
      (a.hit = false → ¬(ct - a.time > MissWindow) →
        (updateLoop ct notes g).1.get? i = some a) := by
  induction notes with
  | nil => intro g hg i a ha; simp at ha
  | cons n rest ih =>
    intro g hg i a ha
    match i with
    | 0 =>
      simp only [List.get?] at ha
      injection ha with ha
      subst ha
      by_cases hhit : n.hit
      · refine ⟨fun _ => ?_, fun hf _ => by rw [hf] at hhit; simp at hhit,
          fun hf _ => by rw [hf] at hhit; simp at hhit⟩
        simp [updateLoop, hhit]
      · refine ⟨fun ht => by rw [ht] at hhit; simp at hhit, fun _ hold => ?_,
          fun _ hold => ?_⟩
        · simp only [updateLoop, hhit, if_false, Bool.false_eq_true, hold,
            if_true]
          rw [RegisterHit_fst_hit, hg]
          rfl
        · simp [updateLoop, hhit, hold]
    | Nat.succ j =>
      simp only [List.get?] at ha
      have hq2 : ∀ q : HitQuality, ∀ x y : ℚ,
          (RegisterHit g a q x y).2.currentTime = ct := by
        intro q x y
        rw [(RegisterHit_preserves g a q x y).2.1, hg]
      by_cases hhit : n.hit
      · have := ih g hg j a ha
        simpa [updateLoop, hhit] using this
      · by_cases hold : ct - n.time > MissWindow
        · have hpres := (RegisterHit_preserves g n .miss 0
            (80 + (n.string : ℚ) * 40)).2.1
          have := ih (RegisterHit g n .miss 0 (80 + (n.string : ℚ) * 40)).2
            (by rw [hpres, hg]) j a ha
          simpa [updateLoop, hhit, hold] using this
        · have := ih g hg j a ha
          simpa [updateLoop, hhit, hold] using this

/-- Claim C4: for every not-yet-hit note whose age exceeds the miss window
(`currentTime - note.time > 0.300`), one invocation of the miss sweep
(`HitDetector.Update`) registers that note as a miss (`hit = true`, quality
miss, hit time stamped with the sweep's clock); notes already marked hit
are left untouched.  `Update` takes no pitch sample at all, so the sweep is
independent of pitch-sample validity or presence by construction. -/
theorem miss_sweep_registers (g : GameState) (i : ℕ) (a : TabNote)
    (ha : g.notes.get? i = some a) :
    (a.hit = false → g.currentTime - a.time > MissWindow →
      (Update g).notes.get? i =
        some { a with
                 hit := true
                 hitQuality := .miss
                 hitTime := g.currentTime }) ∧
    (a.hit = true → (Update g).notes.get? i = some a) := by
  have h := updateLoop_get g.currentTime g.notes g rfl i a ha
  exact ⟨h.2.1, h.1⟩

/-- Witness for C4: a two-note state at time 1.0 with one stale unhit note
and one already-hit note. -/
theorem miss_sweep_registers_witness :
    (Update ⟨[⟨1/2, 0, 0, 0, 0, false, .miss, 0⟩,
              ⟨9/10, 0, 1, 2, 0, true, .good, 1⟩], 1, 0, 0, 0, 0, 0, 2, []⟩).notes.get? 0 =
      some ⟨1/2, 0, 0, 0, 0, true, .miss, 1⟩ ∧
    (Update ⟨[⟨1/2, 0, 0, 0, 0, false, .miss, 0⟩,
              ⟨9/10, 0, 1, 2, 0, true, .good, 1⟩], 1, 0, 0, 0, 0, 0, 2, []⟩).notes.get? 1 =
      some ⟨9/10, 0, 1, 2, 0, true, .good, 1⟩ :=
  ⟨(miss_sweep_registers ⟨[⟨1/2, 0, 0, 0, 0, false, .miss, 0⟩,
        ⟨9/10, 0, 1, 2, 0, true, .good, 1⟩], 1, 0, 0, 0, 0, 0, 2, []⟩ 0
      ⟨1/2, 0, 0, 0, 0, false, .miss, 0⟩ rfl).1 rfl (by norm_num [MissWindow]),
   (miss_sweep_registers ⟨[⟨1/2, 0, 0, 0, 0, false, .miss, 0⟩,
        ⟨9/10, 0, 1, 2, 0, true, .good, 1⟩], 1, 0, 0, 0, 0, 0, 2, []⟩ 1
      ⟨9/10, 0, 1, 2, 0, true, .good, 1⟩ rfl).2 rfl⟩

/-! ### Scanner single-judgment bound (`HitDetector.CheckHit`) -/

/-- A pair with equal components is never a judgment. -/
theorem judgedInWindow_self (ct : ℚ) (a : TabNote) :
    judgedInWindow ct (a, a) = false := by
  unfold judgedInWindow
  cases a.hit <;> simp

/-- A note strictly older than the miss window is outside the judging
window, whatever its output note. -/
theorem judgedInWindow_stale (ct : ℚ) (a b : TabNote)
    (h : a.time - ct < -MissWindow) :
    judgedInWindow ct (a, b) = false := by
  unfold judgedInWindow
  have habs : ¬(|a.time - ct| ≤ MissWindow) := by
    rw [abs_le]
    intro hc
    linarith [hc.1]
  simp [habs]

/-- An unchanged suffix contributes no judgments. -/
theorem zip_self_no_flip (ct : ℚ) (l : List TabNote) :
    (l.zip l).countP (judgedInWindow ct) = 0 := by
  induction l with
  | nil => rfl
  | cons a l ih =>
    rw [List.zip_cons_cons, List.countP_cons, judgedInWindow_self]
    simp [ih]

/-- The scanner loop performs at most one in-window judgment, whatever the
matcher verdicts: the pitch-match branch returns immediately, the
stale-miss branch fires only outside the window, and all other branches
leave the note unchanged. -/
theorem checkHitLoop_count (m : TabNote → Bool) (ct plx : ℚ) :
    ∀ (notes : List TabNote) (g : GameState),
      (notes.zip (checkHitLoop m ct plx notes g).1).countP
        (judgedInWindow ct) ≤ 1 := by
  intro notes
  induction notes with
  | nil => intro g; simp [checkHitLoop]
  | cons n rest ih =>
    intro g
    simp only [checkHitLoop]
    by_cases hhit : n.hit = true
    · simp only [hhit, if_true, List.zip_cons_cons, List.countP_cons]
      have hself := judgedInWindow_self ct n
      simp [hself, ih g]
    · simp only [hhit, if_false]
      by_cases h1 : n.time - ct > MissWindow
      · simp only [h1, if_true, List.zip_cons_cons, List.countP_cons]
        have hself := judgedInWindow_self ct n
        simp [hself, ih g]
      · simp only [h1, if_false]
        by_cases h2 : n.time - ct < -MissWindow
        · simp only [h2, if_true, List.zip_cons_cons, List.countP_cons]
          have hstale := judgedInWindow_stale ct n
            (RegisterHit g n .miss plx (80 + (n.string : ℚ) * 40)).1 h2
          simp [hstale,
            ih (RegisterHit g n .miss plx (80 + (n.string : ℚ) * 40)).2]
        · simp only [h2, if_false]
          by_cases h3 : m n = true
          · simp only [h3, if_true, Bool.false_eq_true, if_false,
              List.zip_cons_cons, List.countP_cons]
            rw [zip_self_no_flip]
            split <;> omega
          · simp only [h3, if_false, List.zip_cons_cons, List.countP_cons]
            have hself := judgedInWindow_self ct n
            simp [hself, ih g]

/-- Claim C3: in any single `CheckHit` invocation, at most one note
transitions to hit via a pitch match (an unhit-to-hit flip inside the
judging window), regardless of how many unhit notes are simultaneously in
the window; and if the latest sample is invalid (empty note name or
confidence not exceeding 0.5) the invocation leaves the state entirely
unchanged — no note is judged at all. -/
theorem scanner_single_judgment (pitch : PitchResult) (m : TabNote → Bool)
    (plx : ℚ) (g : GameState) :
    (pitch.IsValid = false → CheckHit pitch m plx g = g) ∧
    (g.notes.zip (CheckHit pitch m plx g).notes).countP
      (judgedInWindow g.currentTime) ≤ 1 := by
  constructor
  · intro hv
    unfold CheckHit
    rw [hv]
    rfl
  · unfold CheckHit
    by_cases hv : pitch.IsValid = true
    · simp only [hv, Bool.not_true, Bool.false_eq_true, if_false]
      exact checkHitLoop_count m g.currentTime plx g.notes g
    · rw [Bool.not_eq_true] at hv
      rw [hv]
      simp only [Bool.not_false, if_true]
      rw [zip_self_no_flip]
      omega

/-- Witness for C3: a low-confidence sample (empty note, confidence 0)
leaves a one-note state untouched. -/
theorem scanner_single_judgment_witness :
    (CheckHit ⟨0, 0, "", 0, 0, 0⟩ (fun _ => true) 0
        ⟨[⟨1, 0, 0, 0, 0, false, .miss, 0⟩], 1, 0, 0, 0, 0, 0, 1, []⟩ =
      ⟨[⟨1, 0, 0, 0, 0, false, .miss, 0⟩], 1, 0, 0, 0, 0, 0, 1, []⟩) ∧
    ((⟨[⟨1, 0, 0, 0, 0, false, .miss, 0⟩], 1, 0, 0, 0, 0, 0, 1,
        []⟩ : GameState).notes.zip
      (CheckHit ⟨0, 0, "", 0, 0, 0⟩ (fun _ => true) 0
        ⟨[⟨1, 0, 0, 0, 0, false, .miss, 0⟩], 1, 0, 0, 0, 0, 0, 1,
          []⟩).notes).countP (judgedInWindow 1) ≤ 1 :=
  ⟨(scanner_single_judgment ⟨0, 0, "", 0, 0, 0⟩ (fun _ => true) 0
      ⟨[⟨1, 0, 0, 0, 0, false, .miss, 0⟩], 1, 0, 0, 0, 0, 0, 1, []⟩).1 rfl,
   (scanner_single_judgment ⟨0, 0, "", 0, 0, 0⟩ (fun _ => true) 0
      ⟨[⟨1, 0, 0, 0, 0, false, .miss, 0⟩], 1, 0, 0, 0, 0, 0, 1, []⟩).2⟩

/-! ### Scan order and far-future notes -/

/-- When every note of the list lies beyond the miss window in the future,
the scan loop is the identity (each note is skipped by the hit check or the
far-future check and the threaded state is untouched). -/
theorem checkHitLoop_all_future (m : TabNote → Bool) (ct plx : ℚ) :
    ∀ (notes : List TabNote) (g : GameState),
      (∀ x ∈ notes, x.time - ct > MissWindow) →
      checkHitLoop m ct plx notes g = (notes, g) := by
  intro notes
  induction notes with
  | nil => intro g _; rfl
  | cons n rest ih =>
    intro g hall
    have hn := hall n (List.mem_cons_self n rest)
    have hrest := ih g (fun x hx => hall x (List.mem_cons_of_mem n hx))
    simp only [checkHitLoop]
    by_cases hhit : n.hit = true
    · simp [hhit, hrest]
    · simp [hhit, hn, hrest]

/-- Once the scan meets a note beyond the miss window in a time-sorted
chart, the rest of the list — that note and everything after it — comes out
of the scan unchanged. -/
theorem checkHitLoop_drop_future (m : TabNote → Bool) (ct plx : ℚ) :
    ∀ (notes : List TabNote) (i : ℕ) (g : GameState) (a : TabNote),
      List.Pairwise (fun u v => u.time ≤ v.time) notes →
      notes.get? i = some a →
      a.time - ct > MissWindow →
      (checkHitLoop m ct plx notes g).1.drop i = notes.drop i := by
  intro notes
  induction notes with
  | nil => intro i g a _ ha _; simp at ha
  | cons n rest ih =>
    intro i g a hsort ha hfut
    rcases List.pairwise_cons.mp hsort with ⟨hle, hsort'⟩
    match i with
    | 0 =>
      simp only [List.get?] at ha
      injection ha with ha
      subst ha
      have hall : ∀ x ∈ n :: rest, x.time - ct > MissWindow := by
        intro x hx
        rcases List.mem_cons.mp hx with h | h
        · rw [h]; exact hfut
        · have := hle x h; linarith
      rw [checkHitLoop_all_future m ct plx _ g hall]
    | Nat.succ j =>
      simp only [List.get?] at ha
      simp only [checkHitLoop]
      by_cases hhit : n.hit = true
      · simp only [hhit, if_true, List.drop_succ_cons]
        exact ih j g a hsort' ha hfut
      · simp only [hhit, Bool.false_eq_true, if_false]
        by_cases h1 : n.time - ct > MissWindow
        · simp only [h1, if_true, List.drop_succ_cons]
          exact ih j g a hsort' ha hfut
        · simp only [h1, if_false]
          by_cases h2 : n.time - ct < -MissWindow
          · simp only [h2, if_true, List.drop_succ_cons]
            exact ih j _ a hsort' ha hfut
          · simp only [h2, if_false]
            by_cases h3 : m n = true
            · simp only [h3, if_true, List.drop_succ_cons]
            · simp only [h3, Bool.false_eq_true, if_false,
                List.drop_succ_cons]
              exact ih j g a hsort' ha hfut

/-- Claim C9: during a `CheckHit` scan over notes in non-decreasing time
order (the order the loader establishes), when the scan encounters a
not-yet-hit note with `note.time - currentTime > 0.300` no note from that
point on in time order is judged or marked missed by that invocation: the
scanned suffix comes out unchanged. -/
theorem scanner_stops_at_future (pitch : PitchResult) (m : TabNote → Bool)
    (plx : ℚ) (g : GameState) (i : ℕ) (a : TabNote)
    (hsort : List.Pairwise (fun u v => u.time ≤ v.time) g.notes)
    (ha : g.notes.get? i = some a) (hunhit : a.hit = false)
    (hfut : a.time - g.currentTime > MissWindow) :
    (CheckHit pitch m plx g).notes.drop i = g.notes.drop i := by
  unfold CheckHit
  split_ifs with h
  · rfl
  · exact checkHitLoop_drop_future m g.currentTime plx g.notes i g a hsort
      ha hfut

/-- Witness for C9: a sorted two-note chart whose first unhit note is 1
second in the future. -/
theorem scanner_stops_at_future_witness :
    (CheckHit ⟨0, 1, "E", 1, 0, 0⟩ (fun _ => true) 0
        ⟨[⟨1, 0, 0, 0, 0, false, .miss, 0⟩, ⟨2, 0, 0, 2, 0, false, .miss, 0⟩],
          0, 0, 0, 0, 0, 0, 2, []⟩).notes.drop 0 =
      ([⟨1, 0, 0, 0, 0, false, .miss, 0⟩,
        ⟨2, 0, 0, 2, 0, false, .miss, 0⟩] : List TabNote).drop 0 :=
  scanner_stops_at_future ⟨0, 1, "E", 1, 0, 0⟩ (fun _ => true) 0
    ⟨[⟨1, 0, 0, 0, 0, false, .miss, 0⟩, ⟨2, 0, 0, 2, 0, false, .miss, 0⟩],
      0, 0, 0, 0, 0, 0, 2, []⟩ 0 ⟨1, 0, 0, 0, 0, false, .miss, 0⟩
    (by norm_num [List.pairwise_cons]) rfl rfl
    (by norm_num [MissWindow])

/-! ### Pitch match in the outer judging window -/

/-- A prefix of already-hit notes passes through the scan loop unchanged
and does not consume the frame's single judgment. -/
theorem checkHitLoop_hit_prefix (m : TabNote → Bool) (ct plx : ℚ) :
    ∀ (pre l : List TabNote) (g : GameState),
      (∀ x ∈ pre, x.hit = true) →
      checkHitLoop m ct plx (pre ++ l) g =
        (pre ++ (checkHitLoop m ct plx l g).1,
         (checkHitLoop m ct plx l g).2) := by
  intro pre
  induction pre with
  | nil => intro l g _; simp
  | cons p pre ih =>
    intro l g hall
    have hp := hall p (List.mem_cons_self p pre)
    simp only [List.cons_append, checkHitLoop, hp, if_true]
    rw [show pre.append l = pre ++ l from rfl,
      ih l g (fun x hx => hall x (List.mem_cons_of_mem p hx))]

/-- Claim C10: if the latest sample is valid and pitch-matches the first
unhit note (all earlier notes already hit), and that note's absolute offset
lies in `(OKWindow, MissWindow]`, the invocation immediately registers the
matched note with quality miss — `hit = true`, combo reset to 0,
`notesMissed` incremented, zero points added — and stops scanning, leaving
the rest of the chart untouched. -/
theorem scanner_match_outside_ok_is_miss (pitch : PitchResult)
    (m : TabNote → Bool) (plx : ℚ) (g : GameState) (pre : List TabNote)
    (note : TabNote) (rest : List TabNote)
    (hnotes : g.notes = pre ++ note :: rest)
    (hpre : ∀ x ∈ pre, x.hit = true)
    (hv : pitch.IsValid = true) (hm : m note = true)
    (hunhit : note.hit = false)
    (hok : OKWindow < |note.time - g.currentTime|)
    (hwin : |note.time - g.currentTime| ≤ MissWindow) :
    CheckHit pitch m plx g =
      { g with
          notes := pre ++
            ({ note with
                 hit := true
                 hitQuality := .miss
                 hitTime := g.currentTime } :: rest)
          combo := 0
          notesMissed := g.notesMissed + 1
          score := g.score + 0
          floatingText := g.floatingText ++
            [⟨feedbackText .miss 0 0, plx,
              80 + (note.string : ℚ) * 40, .miss⟩] } := by
  have habs := abs_le.mp hwin
  have hq : getHitQuality |note.time - g.currentTime| = .miss := by
    have h01 : ¬(|note.time - g.currentTime| ≤ PerfectWindow) :=
      not_le.mpr (lt_trans (by norm_num [PerfectWindow, OKWindow]) hok)
    have h02 : ¬(|note.time - g.currentTime| ≤ GoodWindow) :=
      not_le.mpr (lt_trans (by norm_num [GoodWindow, OKWindow]) hok)
    have h03 : ¬(|note.time - g.currentTime| ≤ OKWindow) := not_le.mpr hok
    unfold getHitQuality
    rw [if_neg h01, if_neg h02, if_neg h03]
  unfold CheckHit
  rw [hv]
  simp only [Bool.not_true, Bool.false_eq_true, if_false]
  rw [hnotes,
    checkHitLoop_hit_prefix m g.currentTime plx pre (note :: rest) g hpre]
  simp only [checkHitLoop, hunhit, Bool.false_eq_true, if_false]
  rw [if_neg (not_lt.mpr habs.2), if_neg (not_lt.mpr habs.1), if_pos hm, hq,
    RegisterHit_miss_spec]

/-- Witness for C10: a single unhit note 0.2 s in the future, matched by a
valid sample, is registered as an immediate miss. -/
theorem scanner_match_outside_ok_is_miss_witness :
    CheckHit ⟨0, 1, "E", 1, 0, 0⟩ (fun _ => true) 0
        ⟨[⟨1/5, 0, 0, 0, 0, false, .miss, 0⟩], 0, 0, 0, 0, 0, 0, 1, []⟩ =
      ⟨[⟨1/5, 0, 0, 0, 0, true, .miss, 0⟩], 0, 0 + 0, 0, 0, 0, 0 + 1, 1,
        [] ++ [⟨feedbackText .miss 0 0, 0, 80 + ((0 : ℕ) : ℚ) * 40, .miss⟩]⟩ :=
  scanner_match_outside_ok_is_miss ⟨0, 1, "E", 1, 0, 0⟩ (fun _ => true) 0
    ⟨[⟨1/5, 0, 0, 0, 0, false, .miss, 0⟩], 0, 0, 0, 0, 0, 0, 1, []⟩ []
    ⟨1/5, 0, 0, 0, 0, false, .miss, 0⟩ [] rfl (by simp)
    (by simp [PitchResult.IsValid]; norm_num) rfl rfl
    (lt_of_lt_of_le (show OKWindow < ((1 : ℚ)/5 - 0 : ℚ) by
      norm_num [OKWindow]) (le_abs_self _))
    (abs_le.mpr ⟨by norm_num [MissWindow], by norm_num [MissWindow]⟩)

/-! ### Bookkeeping relation for scans and sweeps -/

/-- The scan loop on an empty list is the identity. -/
theorem checkHitLoop_nil (m : TabNote → Bool) (ct plx : ℚ) (g : GameState) :
    checkHitLoop m ct plx [] g = ([], g) := rfl

/-- The sweep loop on an empty list is the identity. -/
theorem updateLoop_nil (ct : ℚ) (g : GameState) :
    updateLoop ct [] g = ([], g) := rfl

/-- The scan loop satisfies the bookkeeping relation: counters track newly
hit notes, the combo invariant is preserved, total and length untouched. -/
theorem checkHitLoop_rel (m : TabNote → Bool) (ct plx : ℚ) :
    ∀ (notes : List TabNote) (g : GameState),
      StepRel notes g (checkHitLoop m ct plx notes g).1
        (checkHitLoop m ct plx notes g).2 := by
  intro notes
  induction notes with
  | nil =>
    intro g
    rw [checkHitLoop_nil]
    exact ⟨by simp, fun h0 h1 => ⟨h0, h1⟩, rfl, rfl⟩
  | cons n rest ih =>
    intro g
    simp only [checkHitLoop]
    by_cases hhit : n.hit = true
    · simp only [hhit, if_true]
      obtain ⟨e1, e2, e3, e4⟩ := ih g
      refine ⟨?_, e2, e3, by simp [e4]⟩
      simp only [List.countP_cons, hhit, if_true]
      push_cast
      omega
    · simp only [hhit, Bool.false_eq_true, if_false]
      by_cases h1 : n.time - ct > MissWindow
      · simp only [h1, if_true]
        obtain ⟨e1, e2, e3, e4⟩ := ih g
        refine ⟨?_, e2, e3, by simp [e4]⟩
        simp only [List.countP_cons, hhit, Bool.false_eq_true, if_false]
        push_cast
        omega
      · simp only [h1, if_false]
        by_cases h2 : n.time - ct < -MissWindow
        · simp only [h2, if_true]
          set q := RegisterHit g n .miss plx (80 + (n.string : ℚ) * 40)
            with hqdef
          have hqhit : q.1.hit = true := by
            rw [hqdef, RegisterHit_fst_hit]
          have hqcnt := RegisterHit_judged_count g n .miss plx
            (80 + (n.string : ℚ) * 40)
          have hqcombo := RegisterHit_combo_le g n .miss plx
            (80 + (n.string : ℚ) * 40)
          have hqpres := RegisterHit_preserves g n .miss plx
            (80 + (n.string : ℚ) * 40)
          rw [← hqdef] at hqcnt hqcombo hqpres
          obtain ⟨e1, e2, e3, e4⟩ := ih q.2
          refine ⟨?_, ?_, ?_, by simp [e4]⟩
          · simp only [List.countP_cons, hhit, Bool.false_eq_true, if_false,
              hqhit, if_true]
            push_cast
            omega
          · intro hc0 hc1
            exact e2 (hqcombo hc0 hc1).1 (hqcombo hc0 hc1).2
          · rw [e3, hqpres.2.2]
        · simp only [h2, if_false]
          by_cases h3 : m n = true
          · simp only [h3, if_true]
            set q := RegisterHit g n (getHitQuality |n.time - ct|) plx
              (80 + (n.string : ℚ) * 40) with hqdef
            have hqhit : q.1.hit = true := by
              rw [hqdef, RegisterHit_fst_hit]
            have hqcnt := RegisterHit_judged_count g n
              (getHitQuality |n.time - ct|) plx (80 + (n.string : ℚ) * 40)
            have hqcombo := RegisterHit_combo_le g n
              (getHitQuality |n.time - ct|) plx (80 + (n.string : ℚ) * 40)
            have hqpres := RegisterHit_preserves g n
              (getHitQuality |n.time - ct|) plx (80 + (n.string : ℚ) * 40)
            rw [← hqdef] at hqcnt hqcombo hqpres
            refine ⟨?_, fun hc0 hc1 => hqcombo hc0 hc1, hqpres.2.2, rfl⟩
            simp only [List.countP_cons, hhit, Bool.false_eq_true, if_false,
              hqhit, if_true]
            push_cast
            omega
          · simp only [h3, Bool.false_eq_true, if_false]
            obtain ⟨e1, e2, e3, e4⟩ := ih g
            refine ⟨?_, e2, e3, by simp [e4]⟩
            simp only [List.countP_cons, hhit, Bool.false_eq_true, if_false]
            push_cast
            omega

/-- The miss sweep loop satisfies the same bookkeeping relation. -/
theorem updateLoop_rel (ct : ℚ) :
    ∀ (notes : List TabNote) (g : GameState),
      StepRel notes g (updateLoop ct notes g).1 (updateLoop ct notes g).2 := by
  intro notes
  induction notes with
  | nil =>
    intro g
    rw [updateLoop_nil]
    exact ⟨by simp, fun h0 h1 => ⟨h0, h1⟩, rfl, rfl⟩
  | cons n rest ih =>
    intro g
    simp only [updateLoop]
    by_cases hhit : n.hit = true
    · simp only [hhit, if_true]
      obtain ⟨e1, e2, e3, e4⟩ := ih g
      refine ⟨?_, e2, e3, by simp [e4]⟩
      simp only [List.countP_cons, hhit, if_true]
      push_cast
      omega
    · simp only [hhit, Bool.false_eq_true, if_false]
      by_cases h1 : ct - n.time > MissWindow
      · simp only [h1, if_true]
        set q := RegisterHit g n .miss 0 (80 + (n.string : ℚ) * 40)
          with hqdef
        have hqhit : q.1.hit = true := by
          rw [hqdef, RegisterHit_fst_hit]
        have hqcnt := RegisterHit_judged_count g n .miss 0
          (80 + (n.string : ℚ) * 40)
        have hqcombo := RegisterHit_combo_le g n .miss 0
          (80 + (n.string : ℚ) * 40)
        have hqpres := RegisterHit_preserves g n .miss 0
          (80 + (n.string : ℚ) * 40)
        rw [← hqdef] at hqcnt hqcombo hqpres
        obtain ⟨e1, e2, e3, e4⟩ := ih q.2
        refine ⟨?_, ?_, ?_, by simp [e4]⟩
        · simp only [List.countP_cons, hhit, Bool.false_eq_true, if_false,
            hqhit, if_true]
          push_cast
          omega
        · intro hc0 hc1
          exact e2 (hqcombo hc0 hc1).1 (hqcombo hc0 hc1).2
        · rw [e3, hqpres.2.2]
      · simp only [h1, if_false]
        obtain ⟨e1, e2, e3, e4⟩ := ih g
        refine ⟨?_, e2, e3, by simp [e4]⟩
        simp only [List.countP_cons, hhit, Bool.false_eq_true, if_false]
        push_cast
        omega

/-- Every step of the session alphabet satisfies the bookkeeping relation
between its input and output states. -/
theorem StepOp_rel (op : StepOp) (g : GameState) :
    StepRel g.notes g (op.apply g).notes (op.apply g) := by
  cases op with
  | check pitch m plx =>
    simp only [StepOp.apply, CheckHit]
    split_ifs with h
    · exact ⟨by simp, fun h0 h1 => ⟨h0, h1⟩, rfl, rfl⟩
    · exact checkHitLoop_rel m g.currentTime plx g.notes g
  | sweep =>
    exact updateLoop_rel g.currentTime g.notes g
  | tick t =>
    exact ⟨rfl, fun h0 h1 => ⟨h0, h1⟩, rfl, rfl⟩

/-- One step preserves the session invariant. -/
theorem ScoreInv_step (op : StepOp) (g : GameState) (h : ScoreInv g) :
    ScoreInv (op.apply g) := by
  obtain ⟨i1, i2, i3, i4⟩ := h
  obtain ⟨e1, e2, e3, e4⟩ := StepOp_rel op g
  have hc := e2 i3 i4
  refine ⟨by omega, ?_, hc.1, hc.2⟩
  rw [e3, i2, e4]

/-- Any run preserves the session invariant. -/
theorem ScoreInv_run (ops : List StepOp) :
    ∀ g : GameState, ScoreInv g → ScoreInv (run ops g) := by
  induction ops with
  | nil => intro g h; exact h
  | cons op rest ih => intro g h; exact ih _ (ScoreInv_step op g h)

/-- Claim C8: starting from a fresh state (`NewGameState`: all counters 0,
`totalNotes` = number of chart notes, chart notes all unhit), every
reachable state after any sequence of scans, sweeps and clock ticks
satisfies `notesHit + notesMissed ≤ totalNotes` and `combo ≤ maxCombo`. -/
theorem score_state_invariants (notes : List TabNote)
    (hfresh : ∀ n ∈ notes, n.hit = false) (ops : List StepOp) :
    (run ops (NewGameState notes)).notesHit +
        (run ops (NewGameState notes)).notesMissed ≤
      (run ops (NewGameState notes)).totalNotes ∧
    (run ops (NewGameState notes)).combo ≤
      (run ops (NewGameState notes)).maxCombo := by
  have h0 : ScoreInv (NewGameState notes) := by
    refine ⟨?_, rfl, le_refl 0, le_refl 0⟩
    have hcnt : notes.countP (·.hit) = 0 :=
      List.countP_eq_zero.mpr (fun a ha => by simp [hfresh a ha])
    simp [NewGameState, hcnt]
  obtain ⟨i1, i2, _, i4⟩ := ScoreInv_run ops _ h0
  refine ⟨?_, i4⟩
  rw [i1, i2]
  exact_mod_cast List.countP_le_length _

/-- Witness for C8: one unhit note, one sweep past its miss window. -/
theorem score_state_invariants_witness :
    (run [.sweep] (NewGameState [⟨1, 0, 0, 0, 0, false, .miss, 0⟩])).notesHit +
        (run [.sweep]
          (NewGameState [⟨1, 0, 0, 0, 0, false, .miss, 0⟩])).notesMissed ≤
      (run [.sweep]
        (NewGameState [⟨1, 0, 0, 0, 0, false, .miss, 0⟩])).totalNotes ∧
    (run [.sweep] (NewGameState [⟨1, 0, 0, 0, 0, false, .miss, 0⟩])).combo ≤
      (run [.sweep]
        (NewGameState [⟨1, 0, 0, 0, 0, false, .miss, 0⟩])).maxCombo :=
  score_state_invariants [⟨1, 0, 0, 0, 0, false, .miss, 0⟩]
    (by intro n hn; simp at hn; rw [hn]) [.sweep]

/-! ### Idempotence: a hit note is never judged again -/

/-- An already-hit note passes through the scan loop unchanged at its
position; both the hit-skip branch and the early match return leave it
intact. -/
theorem checkHitLoop_hit_note (m : TabNote → Bool) (ct plx : ℚ) :
    ∀ (notes : List TabNote) (g : GameState) (i : ℕ) (a : TabNote),
      notes.get? i = some a → a.hit = true →
      (checkHitLoop m ct plx notes g).1.get? i = some a := by
  intro notes
  induction notes with
  | nil => intro g i a ha _; simp at ha
  | cons n rest ih =>
    intro g i a ha hh
    match i with
    | 0 =>
      simp only [List.get?] at ha
      injection ha with ha
      subst ha
      simp [checkHitLoop, hh]
    | Nat.succ j =>
      simp only [List.get?] at ha
      simp only [checkHitLoop]
      by_cases hhit : n.hit = true
      · simp only [hhit, if_true, List.get?]
        exact ih g j a ha hh
      · simp only [hhit, Bool.false_eq_true, if_false]
        by_cases h1 : n.time - ct > MissWindow
        · simp only [h1, if_true, List.get?]
          exact ih g j a ha hh
        · simp only [h1, if_false]
          by_cases h2 : n.time - ct < -MissWindow
          · simp only [h2, if_true, List.get?]
            exact ih _ j a ha hh
          · simp only [h2, if_false]
            by_cases h3 : m n = true
            · simp only [h3, if_true, List.get?]
              exact ha
            · simp only [h3, Bool.false_eq_true, if_false, List.get?]
              exact ih g j a ha hh

/-- An already-hit note survives any single step of the session alphabet
unchanged: both scans filter on `hit == false` before touching a note. -/
theorem step_hit_preserved (op : StepOp) (g : GameState) (i : ℕ)
    (a : TabNote) (ha : g.notes.get? i = some a) (hh : a.hit = true) :
    (op.apply g).notes.get? i = some a := by
  cases op with
  | check pitch m plx =>
    simp only [StepOp.apply, CheckHit]
    split_ifs with h
    · exact ha
    · exact checkHitLoop_hit_note m g.currentTime plx g.notes g i a ha hh
  | sweep =>
    exact (updateLoop_get g.currentTime g.notes g rfl i a ha).1 hh
  | tick t =>
    exact ha

/-- Once a note is hit, no later step flips it again. -/
theorem flipsFrom_zero_of_hit (i : ℕ) :
    ∀ (ops : List StepOp) (g : GameState),
      noteHitAt g i = true → flipsFrom i g ops = 0 := by
  intro ops
  induction ops with
  | nil => intro g _; rfl
  | cons op rest ih =>
    intro g hg
    have hg' : noteHitAt (op.apply g) i = true := by
      unfold noteHitAt at hg ⊢
      cases hget : g.notes.get? i with
      | none => rw [hget] at hg; simp at hg
      | some a =>
        rw [hget] at hg
        simp at hg
        rw [step_hit_preserved op g i a hget hg]
        simp [hg]
    simp only [flipsFrom]
    rw [if_neg (by simp [hg]), ih _ hg']

/-- Claim C5: for any sequence of scanner invocations, sweeps and clock
ticks, a note already marked hit is never judged again — it survives the
whole run unchanged — and any note flips from unhit to hit at most once
along the run.  Each unhit-to-hit flip is exactly one `RegisterHit`
invocation (every call site guards on `hit == false` and `RegisterHit` sets
`hit = true`), so `RegisterHit` runs at most once per note per session. -/
theorem note_judged_at_most_once (ops : List StepOp) (g : GameState)
    (i : ℕ) :
    (∀ a : TabNote, g.notes.get? i = some a → a.hit = true →
      (run ops g).notes.get? i = some a) ∧
    flipsFrom i g ops ≤ 1 := by
  induction ops generalizing g with
  | nil => exact ⟨fun a ha _ => ha, by simp [flipsFrom]⟩
  | cons op rest ih =>
    constructor
    · intro a ha hh
      exact (ih (op.apply g)).1 a (step_hit_preserved op g i a ha hh) hh
    · simp only [flipsFrom]
      by_cases hflip : noteHitAt g i = false ∧ noteHitAt (op.apply g) i = true
      · rw [if_pos hflip, flipsFrom_zero_of_hit i rest (op.apply g) hflip.2]
      · rw [if_neg hflip]
        simpa using (ih (op.apply g)).2

/-- Witness for C5: an already-hit note survives a sweep and a scan, and
flips at most once. -/
theorem note_judged_at_most_once_witness :
    ((run [.sweep, .tick 2]
        ⟨[⟨1, 0, 0, 0, 0, true, .good, 1⟩], 1, 50, 1, 1, 1, 0, 1, []⟩).notes.get? 0 =
      some ⟨1, 0, 0, 0, 0, true, .good, 1⟩) ∧
    flipsFrom 0 ⟨[⟨1, 0, 0, 0, 0, true, .good, 1⟩], 1, 50, 1, 1, 1, 0, 1, []⟩
      [.sweep, .tick 2] ≤ 1 :=
  ⟨(note_judged_at_most_once [.sweep, .tick 2]
      ⟨[⟨1, 0, 0, 0, 0, true, .good, 1⟩], 1, 50, 1, 1, 1, 0, 1, []⟩ 0).1
      ⟨1, 0, 0, 0, 0, true, .good, 1⟩ rfl rfl,
   (note_judged_at_most_once [.sweep, .tick 2]
      ⟨[⟨1, 0, 0, 0, 0, true, .good, 1⟩], 1, 50, 1, 1, 1, 0, 1, []⟩ 0).2⟩

end GuitarGame
